import Mathlib

/-
  Verification of the AutoMapper mapping engine (dist/automapper.js).

  The JavaScript source is shallowly embedded:
  * JS runtime values are the inductive `Val` (numbers as `Int`; objects and
    arrays as insertion-ordered lists).  String-keyed JS objects used as
    dictionaries are `List (String × _)` with JS object semantics: assignment
    updates an existing key in place (keeping its position) or appends,
    `delete` removes the entry, `for-in` iterates in insertion order
    (property names in this library are non-index strings, for which JS
    guarantees insertion order).
  * user-supplied callbacks (mapping functions, condition predicates,
    forAllMembers handlers, type converters) are Lean functions; a
    forMember mapping function additionally carries the list of
    declaration-phase actions (`ignore` / `mapFrom` / `condition` calls) it
    performs when invoked with the declaration-phase options object, and
    whether it subsequently raises, mirroring everything the dry-run
    invocation in `createMapForMemberHandleMappingFunction` can observe.
  * mutation of the singleton's state is explicit state passing; functions
    that `throw` return `Except String _` carrying the message.
-/

set_option maxHeartbeats 1000000

namespace AutoMapperJs

/-- JS runtime values: `undefined`, `null`, booleans, numbers (modelled as
integers: the library performs no arithmetic), strings, plain objects with
insertion-ordered own enumerable string properties, and arrays. -/
inductive Val where
  | undefined
  | null
  | bool (b : Bool)
  | num (n : Int)
  | str (s : String)
  | obj (fields : List (String × Val))
  | arr (elems : List Val)

/-- JS truthiness (`if (x)`): `undefined`, `null`, `false`, `0` and the empty
string are falsy, every object and array is truthy. -/
def truthy : Val → Bool
  | .undefined => false
  | .null => false
  | .bool b => b
  | .num n => decide (n ≠ 0)
  | .str s => decide (s ≠ "")
  | .obj _ => true
  | .arr _ => true

/-- Whether `x instanceof Array` holds. -/
def isJsArray : Val → Bool
  | .arr _ => true
  | _ => false

/-- JS dictionary read `d[k]`: first (and under the unique-key invariant,
only) entry with the requested key. -/
def dictGet {α : Type} : List (String × α) → String → Option α
  | [], _ => none
  | (k, v) :: rest, key => if k = key then some v else dictGet rest key

/-- JS dictionary write `d[k] = v`: update an existing key in place keeping
its insertion position, otherwise append a new entry. -/
def dictSet {α : Type} : List (String × α) → String → α → List (String × α)
  | [], key, v => [(key, v)]
  | (k, w) :: rest, key, v =>
      if k = key then (k, v) :: rest else (k, w) :: dictSet rest key v

/-- JS dictionary `delete d[k]`: remove the entry with the given key (keys
are unique in a JS object, so removing the first occurrence suffices). -/
def dictDelete {α : Type} : List (String × α) → String → List (String × α)
  | [], _ => []
  | (k, w) :: rest, key =>
      if k = key then rest else (k, w) :: dictDelete rest key

/-- The options object handed to mapping functions at execution time
(`memberConfigurationOptions` in `mapProperty`); the `mapFrom` / `ignore` /
`condition` members it also exposes are inert stubs there, so only the data
fields are modelled. -/
structure MemberConfigurationOptions where
  sourceObject : Val
  sourcePropertyName : String
  destinationPropertyValue : Val

/-- The `{sourceValue, destinationValue}` context handed to a type
converter. -/
structure ResolutionContext where
  sourceValue : Val
  destinationValue : Val

/-- An entry of a member mapping's `mappingValuesAndFunctions` array: either
a literal value or a function (the execution loop distinguishes them with
`typeof entry === 'function'`). -/
inductive ValueOrFunction where
  | value (v : Val)
  | func (f : MemberConfigurationOptions → Val)

/-- `IForMemberMapping`: per-member configuration.  `destinationProperty`
is `Option String` because `createMapForSourceMember` sets it to
`undefined` when the member is ignored. -/
structure MemberMapping where
  sourceProperty : String
  destinationProperty : Option String
  mappingValuesAndFunctions : List ValueOrFunction
  ignore : Bool
  conditionFunction : Option (Val → Val)

/-- A naming convention: `split` models `name.split(splittingExpression)`
(JS `String.prototype.split` with the convention's regular expression, whose
single capture group makes the matched fragments appear in the result), and
`transformPropertyName` recombines fragments. -/
structure NamingConvention where
  split : String → List String
  transformPropertyName : List String → String

/-- A profile as consumed by the mapper: its name and the two optional
naming conventions (`none` models the property being `undefined`). -/
structure Profile where
  profileName : String
  sourceMemberNamingConvention : Option NamingConvention
  destinationMemberNamingConvention : Option NamingConvention

/-- `IMapping`: one mapping definition.  `forMemberMappings` is the JS
object keyed by current source property name; `forAllMemberMappings` keeps
handlers `(destinationObject, propertyName, value)`, modelled as pure
functions returning the updated destination object. -/
structure Mapping where
  sourceKey : String
  destinationKey : String
  forAllMemberMappings : List (Val → String → Val → Val)
  forMemberMappings : List (String × MemberMapping)
  typeConverterFunction : Option (ResolutionContext → Val)
  destinationTypeClass : Option (Unit → Val)
  profile : Option Profile

/-- The singleton's mutable state: `this.profiles` and `this.mappings`. -/
structure AMState where
  profiles : List (String × Profile)
  mappings : List (String × Mapping)

/-- The mapping object freshly created by `createMap` for a key pair. -/
def emptyMapping (sourceKey destinationKey : String) : Mapping :=
  { sourceKey := sourceKey
    destinationKey := destinationKey
    forAllMemberMappings := []
    forMemberMappings := []
    typeConverterFunction := none
    destinationTypeClass := none
    profile := none }

/-- The empty singleton state (constructor: `this.profiles = {}`,
`this.mappings = {}`). -/
def emptyAMState : AMState := { profiles := [], mappings := [] }

/-- `createMap` (full-arity body): stores a fresh mapping definition under
the key `sourceKey + destinationKey` (plain string concatenation), creating
or overwriting.  The returned fluent chaining object closes over this
mapping; the chain methods are modelled as the `createMapForMember` /
`createMapForSourceMember` / ... functions below. -/
def createMap (st : AMState) (sourceKey destinationKey : String) : AMState :=
  { st with
      mappings := dictSet st.mappings (sourceKey ++ destinationKey)
        (emptyMapping sourceKey destinationKey) }

/-- `createMapForMemberFindMember`: linear scan over `forMemberMappings`
returning the first member mapping whose `destinationProperty` is strictly
equal (`===`) to the requested one. -/
def createMapForMemberFindMember :
    List (String × MemberMapping) → Option String → Option MemberMapping
  | [], _ => none
  | (_, mm) :: rest, destinationPropertyName =>
      if mm.destinationProperty = destinationPropertyName then some mm
      else createMapForMemberFindMember rest destinationPropertyName

/-- One thing a user mapping function can do when `createMapForMember`
invokes it against the declaration-phase options object: call
`opts.ignore()`, `opts.mapFrom(name)` or `opts.condition(predicate)`. -/
inductive DeclAction where
  | ignore
  | mapFrom (name : String)
  | condition (pred : Val → Val)

/-- A user function passed to `forMember`: the ordered declaration-phase
actions it performs when dry-run (those executed before any exception it
raises), whether it then raises, and its runtime behaviour. -/
structure MapFunction where
  declActions : List DeclAction
  declThrows : Bool
  run : MemberConfigurationOptions → Val

/-- The second argument of `forMember`: a non-callable literal or a
function (`typeof valueOrFunction === 'function'`). -/
inductive ForMemberArg where
  | value (v : Val)
  | func (f : MapFunction)

/-- Effect of one declaration-phase action on the member mapping being
configured, together with the `addMappingValueOrFunction` flag.
`ignore()` sets the flag, resets `sourceProperty` to `destinationProperty`
(the unreachable `none` case renders JS `undefined` used as a property name,
which stringifies to "undefined") and clears the values; `condition` stores
the predicate; `mapFrom` rewrites the source property. -/
def applyDeclAction : MemberMapping × Bool → DeclAction → MemberMapping × Bool
  | (mm, _), .ignore =>
      ({ mm with
          ignore := true
          sourceProperty :=
            match mm.destinationProperty with
            | some d => d
            | none => "undefined"
          mappingValuesAndFunctions := [] }, false)
  | (mm, add), .condition p => ({ mm with conditionFunction := some p }, add)
  | (mm, add), .mapFrom n => ({ mm with sourceProperty := n }, add)

/-- `createMapForMemberHandleMappingFunction`: invoke the user function once
against the declaration-phase options object (any exception it raises is
swallowed by the empty `catch` block, which is why `declThrows` has no
effect), then append the function itself to the value sequence unless
`ignore()` fired. -/
def createMapForMemberHandleMappingFunction
    (memberMapping : MemberMapping) (f : MapFunction) : MemberMapping :=
  let state := f.declActions.foldl applyDeclAction (memberMapping, true)
  if state.2 then
    { state.1 with
        mappingValuesAndFunctions :=
          state.1.mappingValuesAndFunctions ++ [.func f.run] }
  else state.1

/-- Default member mapping used when no existing mapping matches the
destination property. -/
def defaultMemberMapping (destinationProperty : String) : MemberMapping :=
  { sourceProperty := destinationProperty
    destinationProperty := some destinationProperty
    mappingValuesAndFunctions := []
    ignore := false
    conditionFunction := none }

/-- `createMapForMember`.  JS mutates the found member mapping object in
place and only re-keys the dictionary when the source property changed;
the pure rendering writes the updated record back under its (unchanged)
key in that case, which is equivalent because the dictionary key of a
member mapping always equals its `sourceProperty`. -/
def createMapForMember (mapping : Mapping) (destinationProperty : String)
    (valueOrFunction : ForMemberArg) : Mapping :=
  match createMapForMemberFindMember mapping.forMemberMappings
      (some destinationProperty) with
  | some found =>
      if found.ignore then mapping
      else
        let originalSourcePropertyName := found.sourceProperty
        let mm :=
          match valueOrFunction with
          | .func f => createMapForMemberHandleMappingFunction found f
          | .value v =>
              { found with
                  mappingValuesAndFunctions :=
                    found.mappingValuesAndFunctions ++ [.value v] }
        if originalSourcePropertyName = mm.sourceProperty then
          { mapping with
              forMemberMappings :=
                dictSet mapping.forMemberMappings originalSourcePropertyName mm }
        else
          { mapping with
              forMemberMappings :=
                dictSet (dictDelete mapping.forMemberMappings
                    originalSourcePropertyName)
                  mm.sourceProperty mm }
  | none =>
      let mm :=
        match valueOrFunction with
        | .func f =>
            createMapForMemberHandleMappingFunction
              (defaultMemberMapping destinationProperty) f
        | .value v =>
            { defaultMemberMapping destinationProperty with
                mappingValuesAndFunctions := [.value v] }
      { mapping with
          forMemberMappings :=
            dictSet mapping.forMemberMappings mm.sourceProperty mm }

/-- A user function passed to `forSourceMember`: the options object exposes
only `ignore()`, so the observable declaration-time behaviour is whether the
function calls it; `run` is the runtime behaviour of the function when it is
later evaluated from a value sequence.  (A non-callable argument makes
`forSourceMember` throw `InvalidConfiguration` before reaching this code;
that guard is outside the claims settled here.) -/
structure SourceMemberConfig where
  callsIgnore : Bool
  run : MemberConfigurationOptions → Val

/-- `createMapForSourceMember`: run the config function (its only possible
effect is `ignore()`, which sets the local `ignore` flag and makes the local
`destinationProperty` `undefined`); then either update the existing member
mapping for the source key, or create a fresh one seeded with the config
function. -/
def createMapForSourceMember (mapping : Mapping) (sourceProperty : String)
    (cfg : SourceMemberConfig) : Mapping :=
  let ignore := cfg.callsIgnore
  let destinationProperty : Option String :=
    if cfg.callsIgnore then none else some sourceProperty
  match dictGet mapping.forMemberMappings sourceProperty with
  | some memberMapping =>
      if ignore then
        { mapping with
            forMemberMappings :=
              dictSet mapping.forMemberMappings sourceProperty
                { memberMapping with
                    ignore := true
                    mappingValuesAndFunctions := [] } }
      else
        { mapping with
            forMemberMappings :=
              dictSet mapping.forMemberMappings sourceProperty
                { memberMapping with
                    mappingValuesAndFunctions :=
                      memberMapping.mappingValuesAndFunctions
                        ++ [.func cfg.run] } }
  | none =>
      { mapping with
          forMemberMappings :=
            dictSet mapping.forMemberMappings sourceProperty
              { sourceProperty := sourceProperty
                destinationProperty := destinationProperty
                mappingValuesAndFunctions := [.func cfg.run]
                ignore := ignore
                conditionFunction := none } }

/-- `createMapForAllMembers`: append the handler. -/
def createMapForAllMembers (mapping : Mapping)
    (f : Val → String → Val → Val) : Mapping :=
  { mapping with forAllMemberMappings := mapping.forAllMemberMappings ++ [f] }

/-- `createMapConvertToType`: set the destination construction rule. -/
def createMapConvertToType (mapping : Mapping) (typeClass : Unit → Val) :
    Mapping :=
  { mapping with destinationTypeClass := some typeClass }

/-- One iteration of the member-merge loop of
`createMapWithProfileMergeMappings`: look for an existing member mapping
with the staged member's `destinationProperty`; when found, delete the
existing entry (by its `sourceProperty` key) and store the staged member
mapping itself under its own source property (wholesale replacement, no
field-level merge); when not found, the loop body does nothing — the
staged member is not added. -/
def mergeMemberStep (acc : Mapping)
    (profilePropertyMapping : MemberMapping) : Mapping :=
  match createMapForMemberFindMember acc.forMemberMappings
      profilePropertyMapping.destinationProperty with
  | some existingPropertyMapping =>
      { acc with
          forMemberMappings :=
            dictSet
              (dictDelete acc.forMemberMappings
                existingPropertyMapping.sourceProperty)
              profilePropertyMapping.sourceProperty profilePropertyMapping }
  | none => acc

/-- The body of `createMapWithProfileMergeMappings` once the profile's
staged mapping has been found: append its `forAllMemberMappings` when
non-empty, overwrite the type converter and the destination type class when
set, then run the member-merge loop over all the staged member mappings in
insertion order. -/
def mergeWithProfileMapping (mapping profileMapping : Mapping) : Mapping :=
  let merged :=
    { mapping with
        forAllMemberMappings :=
          if profileMapping.forAllMemberMappings.length > 0 then
            mapping.forAllMemberMappings ++ profileMapping.forAllMemberMappings
          else mapping.forAllMemberMappings
        typeConverterFunction :=
          match profileMapping.typeConverterFunction with
          | some f => some f
          | none => mapping.typeConverterFunction
        destinationTypeClass :=
          match profileMapping.destinationTypeClass with
          | some c => some c
          | none => mapping.destinationTypeClass }
  profileMapping.forMemberMappings.foldl
    (fun acc kv => mergeMemberStep acc kv.2) merged

/-- `createMapWithProfileMergeMappings`: look up the profile's staged
mapping under the compound key
`profileName + "=>" + sourceKey + profileName + "=>" + destinationKey`;
when present, merge it into the live mapping. -/
def createMapWithProfileMergeMappings (st : AMState) (mapping : Mapping)
    (profileName : String) : Mapping :=
  match dictGet st.mappings
      (profileName ++ "=>" ++ mapping.sourceKey
        ++ profileName ++ "=>" ++ mapping.destinationKey) with
  | none => mapping
  | some profileMapping => mergeWithProfileMapping mapping profileMapping

/-- `createMapWithProfile`: throw `ProfileNotFound` when the profile is
absent (or stored under a mismatching name), else assign the profile to the
mapping and merge the staged mapping.  (The JS message wraps the name in
single quotes; the quotes are omitted here.) -/
def createMapWithProfile (st : AMState) (mapping : Mapping)
    (profileName : String) : Except String Mapping :=
  match dictGet st.profiles profileName with
  | none =>
      .error ("Could not find profile with profile name "
        ++ profileName ++ ".")
  | some profile =>
      if profile.profileName = profileName then
        .ok (createMapWithProfileMergeMappings st
          { mapping with profile := some profile } profileName)
      else
        .error ("Could not find profile with profile name "
          ++ profileName ++ ".")

/-! Executor. -/

/-- Own enumerable property names visited by `for (var p in x)`: the keys of
an object in insertion order, the element indices of an array or the
character indices of a string (rendered in decimal), and nothing for the
remaining primitives (`for-in` over `null`/`undefined` iterates zero
times). -/
def ownKeys : Val → List String
  | .obj fields => fields.map (·.1)
  | .arr elems => (List.range elems.length).map (fun i => toString i)
  | .str s => (List.range s.data.length).map (fun i => toString i)
  | _ => []

/-- Property read `x[name]` for the values `ownKeys` can produce (array and
string indices are assumed to be in canonical decimal form, which is how
`ownKeys` renders them); absent properties read as `undefined`. -/
def getOwn : Val → String → Val
  | .obj fields, key => (dictGet fields key).getD .undefined
  | .arr elems, key =>
      (match key.toNat? with
       | some i => (elems.get? i).getD .undefined
       | none => .undefined)
  | .str s, key =>
      (match key.toNat? with
       | some i =>
           (match s.data.get? i with
            | some c => .str (String.mk [c])
            | none => .undefined)
       | none => .undefined)
  | _, _ => .undefined

/-- Render an `Option String` destination property as a JS property name
(`undefined` used as a property name stringifies to "undefined"). -/
def destKeyName : Option String → String
  | some s => s
  | none => "undefined"

/-- `mapGetDestinationPropertyName`: split the source property name with the
source convention's splitting expression, drop the empty fragments the
capture-group split produces, and hand the fragments to the destination
convention's transform.  Accessing `splittingExpression` or
`transformPropertyName` on an `undefined` convention throws, and the
surrounding `try`/`catch` turns any such failure into the unmodified source
property name, so the function is total and never raises. -/
def mapGetDestinationPropertyName (profile : Profile)
    (sourcePropertyName : String) : String :=
  match profile.sourceMemberNamingConvention,
      profile.destinationMemberNamingConvention with
  | some sourceConvention, some destinationConvention =>
      destinationConvention.transformPropertyName
        ((sourceConvention.split sourcePropertyName).filter (fun s => s ≠ ""))
  | _, _ => sourcePropertyName

/-- `mapSetValue`: when `forAllMembers` handlers are registered they are
invoked in registration order and own the assignment; otherwise the value
is assigned directly. -/
def mapSetValue (mapping : Mapping) (destinationObject : Val)
    (destinationPropertyName : String) (destinationPropertyValue : Val) :
    Val :=
  match mapping.forAllMemberMappings with
  | [] =>
      match destinationObject with
      | .obj fields =>
          .obj (dictSet fields destinationPropertyName destinationPropertyValue)
      | other => other
  | handlers =>
      handlers.foldl
        (fun dest h => h dest destinationPropertyName destinationPropertyValue)
        destinationObject

/-- One step of the execution-time fold over `mappingValuesAndFunctions`:
a function is invoked with the current options and its result replaces the
accumulator unless it is `undefined`; a literal replaces the accumulator
outright. -/
def applyValueOrFunction (opts : MemberConfigurationOptions)
    (entry : ValueOrFunction) : MemberConfigurationOptions :=
  match entry with
  | .func f =>
      let r := f opts
      { opts with
          destinationPropertyValue :=
            match r with
            | .undefined => opts.destinationPropertyValue
            | v => v }
  | .value v => { opts with destinationPropertyValue := v }

/-- `mapProperty`: resolve one source property.  With an explicit member
mapping: skip when ignored, skip when the condition evaluates to exactly
`false`, otherwise fold the value/function sequence and assign under the
member's `destinationProperty`.  Without one: auto-map, using the naming
convention transform when a profile is assigned. -/
def mapProperty (mapping : Mapping) (sourceObject : Val)
    (sourcePropertyName : String) (destinationObject : Val) : Val :=
  match dictGet mapping.forMemberMappings sourcePropertyName with
  | some propertyMapping =>
      if propertyMapping.ignore then destinationObject
      else
        match propertyMapping.conditionFunction with
        | some cond =>
            (match cond sourceObject with
             | .bool false => destinationObject
             | _ =>
                 let opts :=
                   propertyMapping.mappingValuesAndFunctions.foldl
                     applyValueOrFunction
                     { sourceObject := sourceObject
                       sourcePropertyName := sourcePropertyName
                       destinationPropertyValue :=
                         getOwn sourceObject sourcePropertyName }
                 mapSetValue mapping destinationObject
                   (destKeyName propertyMapping.destinationProperty)
                   opts.destinationPropertyValue)
        | none =>
            let opts :=
              propertyMapping.mappingValuesAndFunctions.foldl
                applyValueOrFunction
                { sourceObject := sourceObject
                  sourcePropertyName := sourcePropertyName
                  destinationPropertyValue :=
                    getOwn sourceObject sourcePropertyName }
            mapSetValue mapping destinationObject
              (destKeyName propertyMapping.destinationProperty)
              opts.destinationPropertyValue
  | none =>
      let destinationPropertyName :=
        match mapping.profile with
        | some profile =>
            mapGetDestinationPropertyName profile sourcePropertyName
        | none => sourcePropertyName
      mapSetValue mapping destinationObject destinationPropertyName
        (getOwn sourceObject sourcePropertyName)

/-- The destination object `mapItem` starts from: an instance of the
registered destination type class when present, else a fresh object
literal. -/
def constructDestination (mapping : Mapping) : Val :=
  match mapping.destinationTypeClass with
  | some typeClass => typeClass ()
  | none => .obj []

/-- `mapItem`: construct the destination; when a type converter is set,
invoke it with `{sourceValue, destinationValue}` and return its result
immediately; otherwise walk the source's own enumerable properties in
order. -/
def mapItem (mapping : Mapping) (sourceObject : Val) : Val :=
  let destinationObject := constructDestination mapping
  match mapping.typeConverterFunction with
  | some convert =>
      convert { sourceValue := sourceObject
                destinationValue := destinationObject }
  | none =>
      (ownKeys sourceObject).foldl
        (fun dest sourcePropertyName =>
          mapProperty mapping sourceObject sourcePropertyName dest)
        destinationObject

/-- `mapArray`: map each element in index order into a fresh array, pushing
only truthy results. -/
def mapArray (mapping : Mapping) : List Val → List Val
  | [] => []
  | sourceObject :: rest =>
      let destinationObject := mapItem mapping sourceObject
      if truthy destinationObject then
        destinationObject :: mapArray mapping rest
      else mapArray mapping rest

/-- `map` (full-arity body): resolve the mapping definition under the
concatenated key, throw `MappingNotFound` when absent, then dispatch on
`sourceObject instanceof Array`.  The function reads but never writes the
registry, which the state-less return type makes explicit. -/
def map (st : AMState) (sourceKey destinationKey : String)
    (sourceObject : Val) : Except String Val :=
  match dictGet st.mappings (sourceKey ++ destinationKey) with
  | none =>
      .error ("Could not find map object with a source of " ++ sourceKey
        ++ " and a destination of " ++ destinationKey)
  | some mapping =>
      match sourceObject with
      | .arr elems => .ok (.arr (mapArray mapping elems))
      | other => .ok (mapItem mapping other)

/-! Built-in naming conventions.  The splitting expressions are
`/(^[a-z]+(?=$|[A-Z]{1}[a-z0-9]+)|[A-Z]?[a-z0-9]+)/` (camelCase) and
`/(^[A-Z]+(?=$|[A-Z]{1}[a-z0-9]+)|[A-Z]?[a-z0-9]+)/` (PascalCase); the
functions below implement JS `String.prototype.split` with exactly these
expressions: leftmost match wins, the first alternative (anchored by `^`)
is preferred, quantifiers are greedy with backtracking into the lookahead,
and because the whole expression is one capture group every match also
appears in the split result. -/

def isLowerAlpha (c : Char) : Bool := 'a' ≤ c && c ≤ 'z'

def isUpperAlpha (c : Char) : Bool := 'A' ≤ c && c ≤ 'Z'

def isLowerDigit (c : Char) : Bool := isLowerAlpha c || ('0' ≤ c && c ≤ '9')

/-- Length of the maximal run of characters satisfying `p`. -/
def runLength (p : Char → Bool) : List Char → Nat
  | [] => 0
  | c :: cs => if p c then runLength p cs + 1 else 0

/-- The lookahead `(?=$|[A-Z]{1}[a-z0-9]+)`: end of input, or one uppercase
letter followed by at least one `[a-z0-9]`. -/
def caseLookahead : List Char → Bool
  | [] => true
  | u :: rest =>
      isUpperAlpha u &&
        (match rest with
         | v :: _ => isLowerDigit v
         | [] => false)

/-- Backtracking search for the first alternative: try the greedy run
length first, then shorter non-empty prefixes, accepting the longest one
whose lookahead succeeds. -/
def anchoredAltTryLen (s : List Char) : Nat → Option Nat
  | 0 => none
  | n + 1 =>
      if caseLookahead (s.drop (n + 1)) then some (n + 1)
      else anchoredAltTryLen s n

/-- The second alternative `[A-Z]?[a-z0-9]+` (shared by both conventions):
an optional uppercase letter (greedily taken when present — and when taken
it must be followed by at least one `[a-z0-9]`, since backtracking to the
empty optional cannot make `[a-z0-9]+` match an uppercase letter) followed
by a maximal non-empty run of `[a-z0-9]`. -/
def tailAlt : List Char → Option Nat
  | [] => none
  | c :: rest =>
      if isUpperAlpha c then
        let r := runLength isLowerDigit rest
        if r > 0 then some (r + 1) else none
      else
        let r := runLength isLowerDigit (c :: rest)
        if r > 0 then some r else none

/-- Match length of the camelCase splitting expression at position `i`
(the `^`-anchored alternative `^[a-z]+(?=...)` applies only at position
0). -/
def camelMatchLen (s : List Char) (i : Nat) : Option Nat :=
  match (if i = 0 then anchoredAltTryLen (s.drop i)
            (runLength isLowerAlpha (s.drop i))
         else none) with
  | some n => some n
  | none => tailAlt (s.drop i)

/-- Match length of the PascalCase splitting expression at position `i`
(first alternative `^[A-Z]+(?=...)`). -/
def pascalMatchLen (s : List Char) (i : Nat) : Option Nat :=
  match (if i = 0 then anchoredAltTryLen (s.drop i)
            (runLength isUpperAlpha (s.drop i))
         else none) with
  | some n => some n
  | none => tailAlt (s.drop i)

/-- The substring `s[a..b)` as a string. -/
def sliceChars (s : List Char) (a b : Nat) : String :=
  String.mk ((s.drop a).take (b - a))

/-- The JS `String.prototype.split` loop with a separator expression that
never matches the empty string and whose single capture group is the whole
match: scan for the leftmost match from position `q`, emit the pending
piece `s[p..q)` and the captured match, and continue after it; at the end
emit the trailing piece.  `fuel` only bounds the scan (every step advances
`q`); `s.length + 1` steps always suffice. -/
def jsSplitLoop (matchLen : List Char → Nat → Option Nat) (s : List Char) :
    Nat → Nat → Nat → List String
  | _, _, 0 => []
  | p, q, fuel + 1 =>
      if q < s.length then
        match matchLen s q with
        | some n =>
            sliceChars s p q :: sliceChars s q (q + n)
              :: jsSplitLoop matchLen s (q + n) (q + n) fuel
        | none => jsSplitLoop matchLen s p (q + 1) fuel
      else
        [sliceChars s p s.length]

/-- `name.split(expression)` for the two built-in splitting expressions. -/
def jsSplit (matchLen : List Char → Nat → Option Nat) (name : String) :
    List String :=
  jsSplitLoop matchLen name.data 0 0 (name.data.length + 1)

/-- Capitalize the first character (`charAt(0).toUpperCase() + substr(1)`;
the empty string stays empty, as in JS). -/
def capitalizeFragment (s : String) : String :=
  match s.data with
  | [] => ""
  | c :: cs => String.mk (c.toUpper :: cs)

/-- Lower-case the first character (`charAt(0).toLowerCase() + substr(1)`). -/
def lowerFragment (s : String) : String :=
  match s.data with
  | [] => ""
  | c :: cs => String.mk (c.toLower :: cs)

/-- `CamelCaseNamingConvention.transformPropertyName`: first fragment gets a
lower-cased initial, the rest get capitalized initials. -/
def camelTransformPropertyName : List String → String
  | [] => ""
  | first :: rest =>
      (rest.map capitalizeFragment).foldl (fun acc s => acc ++ s)
        (lowerFragment first)

/-- `PascalCaseNamingConvention.transformPropertyName`: every fragment gets
a capitalized initial. -/
def pascalTransformPropertyName (parts : List String) : String :=
  (parts.map capitalizeFragment).foldl (fun acc s => acc ++ s) ""

/-- The built-in camelCase naming convention. -/
def CamelCaseNamingConvention : NamingConvention :=
  { split := jsSplit camelMatchLen
    transformPropertyName := camelTransformPropertyName }

/-- The built-in PascalCase naming convention. -/
def PascalCaseNamingConvention : NamingConvention :=
  { split := jsSplit pascalMatchLen
    transformPropertyName := pascalTransformPropertyName }

/-! Curry adapter (`handleCurrying`). -/

/-- Result of calling a curry-capable operation: either the underlying
operation's result, or a partial callable that has captured the argument
list supplied so far. -/
inductive CurryResult (α β : Type) where
  | curried (alreadyProvidedArgs : List α)
  | done (result : β)

/-- The entry check `if (arguments.length < func.length) return
this.handleCurrying(func, arguments, this)` placed at the top of
`createMap` and `map`: an under-applied call returns a partial callable
capturing the supplied arguments (`handleCurrying` immediately calls
`accumulator([], argsCopy, func.length - args.length)`, whose threshold
test fails for a non-empty remainder, so it returns the inner closure),
while a full-arity call runs the body. -/
def curryEntry {α β : Type} (arity : Nat) (f : List α → β) (args : List α) :
    CurryResult α β :=
  if args.length < arity then .curried args else .done (f args)

/-- Invoking the partial callable returned by `handleCurrying` with
additional arguments, i.e. one run of `accumulator(moreArgs,
alreadyProvidedArgs.slice(0), stillToCome)`.  The captured `stillToCome`
always equals `arity - alreadyProvidedArgs.length`; the `for` loop
decrements it once per appended argument, after which the threshold test
subtracts `moreArgs.length` once more.  When the threshold fires the
original operation is applied to the accumulated list — and the operation's
own entry check curries again if arguments are still missing; otherwise a
new partial callable capturing the accumulated list is returned.  Because
the closure slices its captured array before accumulating, the captured
state itself is never mutated. -/
def accumulatorCall {α β : Type} (arity : Nat) (f : List α → β)
    (alreadyProvidedArgs moreArgs : List α) : CurryResult α β :=
  let stillToCome : Int := (arity : Int) - alreadyProvidedArgs.length
  if stillToCome - moreArgs.length - moreArgs.length ≤ 0 then
    curryEntry arity f (alreadyProvidedArgs ++ moreArgs)
  else
    .curried (alreadyProvidedArgs ++ moreArgs)

/-- `createMap` as the underlying operation of its curry wrapper: the body
reads the named parameters `sourceKey` and `destinationKey`, i.e. the first
two supplied arguments (a list shorter than the declared arity never
reaches the body). -/
def createMapArgList (st : AMState) : List String → AMState
  | sourceKey :: destinationKey :: _ => createMap st sourceKey destinationKey
  | _ => st

/-! Helper lemmas about the JS dictionary operations. -/

theorem dictGet_dictSet_self {α : Type} (l : List (String × α)) (k : String)
    (v : α) : dictGet (dictSet l k v) k = some v := by
  induction l with
  | nil => simp [dictSet, dictGet]
  | cons kv rest ih =>
      obtain ⟨k0, w⟩ := kv
      by_cases h : k0 = k
      · simp [dictSet, dictGet, h]
      · simp [dictSet, dictGet, h, ih]

theorem mem_dictSet {α : Type} {l : List (String × α)} {k : String} {v : α}
    {kv : String × α} (h : kv ∈ dictSet l k v) : kv ∈ l ∨ kv = (k, v) := by
  induction l with
  | nil =>
      simp [dictSet] at h
      exact Or.inr h
  | cons hd rest ih =>
      obtain ⟨k0, w⟩ := hd
      by_cases hk : k0 = k
      · subst hk
        simp [dictSet] at h
        rcases h with h | h
        · exact Or.inr (by simp [h])
        · exact Or.inl (List.mem_cons_of_mem _ h)
      · simp [dictSet, hk] at h
        rcases h with h | h
        · exact Or.inl (by simp [h])
        · rcases ih h with h2 | h2
          · exact Or.inl (List.mem_cons_of_mem _ h2)
          · exact Or.inr h2

theorem self_mem_dictSet {α : Type} (l : List (String × α)) (k : String)
    (v : α) : (k, v) ∈ dictSet l k v := by
  induction l with
  | nil => simp [dictSet]
  | cons hd rest ih =>
      obtain ⟨k0, w⟩ := hd
      by_cases hk : k0 = k
      · subst hk
        simp [dictSet]
      · simp [dictSet, hk]
        exact Or.inr ih

theorem mem_dictDelete {α : Type} {l : List (String × α)} {k : String}
    {kv : String × α} (hnd : (l.map Prod.fst).Nodup)
    (h : kv ∈ dictDelete l k) : kv ∈ l ∧ kv.1 ≠ k := by
  induction l with
  | nil => simp [dictDelete] at h
  | cons hd rest ih =>
      obtain ⟨k0, w⟩ := hd
      rw [List.map_cons, List.nodup_cons] at hnd
      by_cases hk : k0 = k
      · subst hk
        simp [dictDelete] at h
        refine ⟨List.mem_cons_of_mem _ h, ?_⟩
        intro hkv
        apply hnd.1
        rw [← hkv]
        have hm := List.mem_map_of_mem Prod.fst h
        exact hm
      · simp [dictDelete, hk] at h
        rcases h with h | h
        · refine ⟨by simp [h], ?_⟩
          simp [h, hk]
        · have := ih hnd.2 h
          exact ⟨List.mem_cons_of_mem _ this.1, this.2⟩

/-! Helper lemmas about `createMapForMemberFindMember`. -/

theorem findMember_eq_of_unique {l : List (String × MemberMapping)}
    {d : Option String} {p : MemberMapping}
    (hmem : ∃ kv, kv ∈ l ∧ kv.2.destinationProperty = d)
    (hall : ∀ kv ∈ l, kv.2.destinationProperty = d → kv.2 = p) :
    createMapForMemberFindMember l d = some p := by
  induction l with
  | nil => obtain ⟨kv, hkv, _⟩ := hmem; simp at hkv
  | cons hd rest ih =>
      obtain ⟨k0, mm⟩ := hd
      by_cases hdp : mm.destinationProperty = d
      · have hx : createMapForMemberFindMember ((k0, mm) :: rest) d = some mm := by
          simp [createMapForMemberFindMember, hdp]
        rw [hx]
        exact congrArg some (hall (k0, mm) (by simp) hdp)
      · simp [createMapForMemberFindMember, hdp]
        apply ih
        · obtain ⟨kv, hkv, hkvd⟩ := hmem
          rcases List.mem_cons.mp hkv with h | h
          · exact absurd (by rw [h] at hkvd; exact hkvd) hdp
          · exact ⟨kv, h, hkvd⟩
        · intro kv hkv hkvd
          exact hall kv (List.mem_cons_of_mem _ hkv) hkvd

theorem findMember_mem {l : List (String × MemberMapping)} {d : Option String}
    {e : MemberMapping} (h : createMapForMemberFindMember l d = some e) :
    (∃ k, (k, e) ∈ l) ∧ e.destinationProperty = d := by
  induction l with
  | nil => simp [createMapForMemberFindMember] at h
  | cons hd rest ih =>
      obtain ⟨k0, mm⟩ := hd
      by_cases hdp : mm.destinationProperty = d
      · simp [createMapForMemberFindMember, hdp] at h
        subst h
        exact ⟨⟨k0, by simp⟩, hdp⟩
      · simp [createMapForMemberFindMember, hdp] at h
        obtain ⟨⟨k, hk⟩, hd2⟩ := ih h
        exact ⟨⟨k, List.mem_cons_of_mem _ hk⟩, hd2⟩

/-! Helper lemmas about the declaration-phase action fold of
`createMapForMemberHandleMappingFunction`. -/

theorem foldDecl_no_ignore {acts : List DeclAction}
    (hni : DeclAction.ignore ∉ acts) (mm : MemberMapping) (add : Bool) :
    (acts.foldl applyDeclAction (mm, add)).1.mappingValuesAndFunctions
        = mm.mappingValuesAndFunctions
      ∧ (acts.foldl applyDeclAction (mm, add)).2 = add := by
  induction acts generalizing mm add with
  | nil => simp
  | cons a rest ih =>
      have hni2 : DeclAction.ignore ∉ rest := fun h =>
        hni (List.mem_cons_of_mem _ h)
      have hna : a ≠ DeclAction.ignore := fun h => hni (by simp [h])
      cases a with
      | ignore => exact absurd rfl hna
      | condition p =>
          simpa [List.foldl, applyDeclAction] using
            ih hni2 { mm with conditionFunction := some p } add
      | mapFrom n =>
          simpa [List.foldl, applyDeclAction] using
            ih hni2 { mm with sourceProperty := n } add

theorem foldDecl_preserves_ignored {acts : List DeclAction}
    (s : MemberMapping × Bool) (h1 : s.1.ignore = true)
    (h2 : s.1.mappingValuesAndFunctions = []) (h3 : s.2 = false) :
    (acts.foldl applyDeclAction s).1.ignore = true
      ∧ (acts.foldl applyDeclAction s).1.mappingValuesAndFunctions = []
      ∧ (acts.foldl applyDeclAction s).2 = false := by
  induction acts generalizing s with
  | nil => exact ⟨h1, h2, h3⟩
  | cons a rest ih =>
      obtain ⟨mm, add⟩ := s
      cases a with
      | ignore => exact ih _ rfl rfl rfl
      | condition p => exact ih _ h1 h2 h3
      | mapFrom n => exact ih _ h1 h2 h3

theorem foldDecl_ignored {acts : List DeclAction}
    (h : DeclAction.ignore ∈ acts) (s : MemberMapping × Bool) :
    (acts.foldl applyDeclAction s).1.ignore = true
      ∧ (acts.foldl applyDeclAction s).1.mappingValuesAndFunctions = []
      ∧ (acts.foldl applyDeclAction s).2 = false := by
  induction acts generalizing s with
  | nil => simp at h
  | cons a rest ih =>
      rcases List.mem_cons.mp h with ha | ha
      · subst ha
        obtain ⟨mm, add⟩ := s
        exact foldDecl_preserves_ignored
          (applyDeclAction (mm, add) DeclAction.ignore) rfl rfl rfl
      · exact ih ha _

theorem handleMappingFunction_ignored {mm : MemberMapping} {f : MapFunction}
    (h : DeclAction.ignore ∈ f.declActions) :
    (createMapForMemberHandleMappingFunction mm f).ignore = true
      ∧ (createMapForMemberHandleMappingFunction mm f).mappingValuesAndFunctions
          = [] := by
  obtain ⟨hig, hval, hadd⟩ := foldDecl_ignored h (mm, true)
  simp only [createMapForMemberHandleMappingFunction, hadd]
  exact ⟨hig, hval⟩

theorem handleMappingFunction_no_ignore {mm : MemberMapping} {f : MapFunction}
    (h : DeclAction.ignore ∉ f.declActions) :
    (createMapForMemberHandleMappingFunction mm f).mappingValuesAndFunctions
      = mm.mappingValuesAndFunctions ++ [ValueOrFunction.func f.run] := by
  obtain ⟨hval, hadd⟩ := foldDecl_no_ignore h mm true
  simp only [createMapForMemberHandleMappingFunction, hadd]
  simp [hval]

/-! Helper lemmas about `mapArray` and filtering. -/

theorem mapArray_eq_filter (mapping : Mapping) (xs : List Val) :
    mapArray mapping xs = (xs.map (mapItem mapping)).filter truthy := by
  induction xs with
  | nil => rfl
  | cons x rest ih =>
      by_cases h : truthy (mapItem mapping x)
      · simp [mapArray, List.filter_cons, h, ih]
      · simp [mapArray, List.filter_cons, h, ih]

theorem length_filter_split {α : Type} (p : α → Bool) (xs : List α) :
    (xs.filter p).length + (xs.filter (fun a => !p a)).length = xs.length := by
  induction xs with
  | nil => rfl
  | cons x rest ih =>
      by_cases h : p x
      · simp [List.filter_cons, h]
        omega
      · simp [List.filter_cons, h]
        omega

/-! Helper lemma about the member-merge loop: it touches only
`forMemberMappings`, leaving the handler list, the type converter and the
destination type class of its accumulator unchanged. -/

theorem foldMergeStep_fields (l : List (String × MemberMapping))
    (acc : Mapping) :
    (l.foldl (fun a kv => mergeMemberStep a kv.2) acc).forAllMemberMappings
        = acc.forAllMemberMappings
    ∧ (l.foldl (fun a kv => mergeMemberStep a kv.2) acc).typeConverterFunction
        = acc.typeConverterFunction
    ∧ (l.foldl (fun a kv => mergeMemberStep a kv.2) acc).destinationTypeClass
        = acc.destinationTypeClass := by
  induction l generalizing acc with
  | nil => exact ⟨rfl, rfl, rfl⟩
  | cons kv rest ih =>
      have hstep : (mergeMemberStep acc kv.2).forAllMemberMappings
            = acc.forAllMemberMappings
          ∧ (mergeMemberStep acc kv.2).typeConverterFunction
            = acc.typeConverterFunction
          ∧ (mergeMemberStep acc kv.2).destinationTypeClass
            = acc.destinationTypeClass := by
        cases h : createMapForMemberFindMember acc.forMemberMappings
            kv.2.destinationProperty with
        | none => simp [mergeMemberStep, h]
        | some e => simp [mergeMemberStep, h]
      obtain ⟨h1, h2, h3⟩ := ih (mergeMemberStep acc kv.2)
      refine ⟨?_, ?_, ?_⟩ <;> rw [List.foldl_cons]
      · rw [h1, hstep.1]
      · rw [h2, hstep.2.1]
      · rw [h3, hstep.2.2]

/-! Helper lemma for the curry adapter. -/

theorem accumulatorCall_eq_curryEntry {α β : Type} (arity : Nat)
    (f : List α → β) (provided more : List α) :
    accumulatorCall arity f provided more
      = curryEntry arity f (provided ++ more) := by
  by_cases hc : ((arity : Int) - provided.length - more.length
      - more.length ≤ 0)
  · simp [accumulatorCall, hc]
  · have hlen : provided.length + more.length < arity := by omega
    simp [accumulatorCall, hc, curryEntry, List.length_append, hlen]

/-! Claim C3 / C4: registry keying. -/

/-- C3: the claim states that the registry holds one MappingDefinition per
ordered (sourceKey, destinationKey) pair and that distinct ordered pairs —
e.g. ("ab","c") and ("a","bc") — never alias the same definition.  The code
keys the registry by the plain concatenation `sourceKey + destinationKey`,
so both pairs share the key "abc": after registering ("ab","c"), looking up
the key that a map call for ("a","bc") would use finds the definition whose
`sourceKey` is "ab", and registering ("a","bc") afterwards overwrites that
definition (the registry still holds a single entry, now with sourceKey
"a").  This theorem evaluates the code at that failing input. -/
theorem claim3_distinct_pairs_alias :
    (dictGet (createMap emptyAMState "ab" "c").mappings ("a" ++ "bc")).map
        Mapping.sourceKey = some "ab"
    ∧ (dictGet (createMap (createMap emptyAMState "ab" "c") "a" "bc").mappings
        ("ab" ++ "c")).map Mapping.sourceKey = some "a"
    ∧ (createMap (createMap emptyAMState "ab" "c") "a" "bc").mappings.length
        = 1 :=
  ⟨rfl, rfl, rfl⟩

/-- C4: the claim states that `map` fails with `MappingNotFound` for every
ordered pair for which no `createMap` registration exists.  Because the
registry key is the plain concatenation of the two keys, `map "a" "bc"`
succeeds after `createMap "ab" "c"` even though the pair ("a","bc") was
never registered (first conjunct evaluates the code at that failing input);
when no registered definition's concatenated key matches, `map` does fail
synchronously with the `MappingNotFound` error (second conjunct), and the
pure return type of `map` records that the registry is never modified. -/
theorem claim4_mapping_not_found :
    map (createMap emptyAMState "ab" "c") "a" "bc" (Val.obj [])
        = Except.ok (Val.obj [])
    ∧ map emptyAMState "a" "bc" (Val.obj [])
        = Except.error
            "Could not find map object with a source of a and a destination of bc" :=
  ⟨rfl, rfl⟩

/-! Claim C5: type converter bypass. -/

/-- C5: for every definition with a type converter set and every
non-collection input, `map` constructs the destination (factory if present,
else an empty record), invokes the converter with a context whose
`sourceValue` is the input and whose `destinationValue` is that constructed
destination, and returns the converter's result directly — the conclusion
holds for arbitrary `forMemberMappings`, condition predicates, naming
conventions and all-members handlers in `mapping`, which formalizes that no
per-member rule is consulted; returning exactly `convert ctx` formalizes
the single invocation. -/
theorem claim5_convertUsing_bypass (st : AMState)
    (sourceKey destinationKey : String) (mapping : Mapping)
    (convert : ResolutionContext → Val) (v : Val)
    (hlookup : dictGet st.mappings (sourceKey ++ destinationKey)
      = some mapping)
    (hconv : mapping.typeConverterFunction = some convert)
    (hnotarr : isJsArray v = false) :
    map st sourceKey destinationKey v
      = .ok (convert { sourceValue := v
                       destinationValue := constructDestination mapping }) := by
  cases v <;> simp_all [map, mapItem, isJsArray]

/-- Registry used by the C5 witness: a single definition whose converter
returns a fixed object. -/
def claim5State : AMState :=
  { profiles := []
    mappings :=
      [("sd",
        { emptyMapping "s" "d" with
            typeConverterFunction :=
              some (fun _ => Val.obj [("fixed", Val.bool true)]) })] }

/-- Witness for C5 at a concrete input. -/
theorem claim5_witness :
    map claim5State "s" "d" (Val.num 42)
      = .ok (Val.obj [("fixed", Val.bool true)]) :=
  claim5_convertUsing_bypass claim5State "s" "d" _ _ (Val.num 42) rfl rfl rfl

/-! Claim C6: collection mapping. -/

/-- C6: for every definition and ordered collection input, `map` returns a
fresh sequence obtained by mapping each element independently in index
order and keeping, in input order, exactly the truthy per-element results;
the output length is the input length minus the number of elements whose
mapped result is falsy. -/
theorem claim6_mapArray_filters (st : AMState) (sk dk : String)
    (xs : List Val) (mapping : Mapping)
    (hlookup : dictGet st.mappings (sk ++ dk) = some mapping) :
    map st sk dk (.arr xs) = .ok (.arr (mapArray mapping xs))
    ∧ mapArray mapping xs = (xs.map (mapItem mapping)).filter truthy
    ∧ (mapArray mapping xs).length
        = xs.length
          - ((xs.map (mapItem mapping)).filter (fun d => !truthy d)).length := by
  refine ⟨by simp [map, hlookup], mapArray_eq_filter mapping xs, ?_⟩
  have hsplit := length_filter_split truthy (xs.map (mapItem mapping))
  have hlen : (xs.map (mapItem mapping)).length = xs.length :=
    List.length_map xs (mapItem mapping)
  rw [mapArray_eq_filter mapping xs]
  omega

/-- Registry used by the C6 witness: a definition whose converter returns
the source value unchanged, so a falsy element maps to a falsy result. -/
def claim6State : AMState :=
  { profiles := []
    mappings :=
      [("s6d6",
        { emptyMapping "s6" "d6" with
            typeConverterFunction := some (fun ctx => ctx.sourceValue) })] }

/-- Witness for C6: a two-element collection whose second element maps to
`undefined` produces a one-element output preserving order. -/
theorem claim6_witness :
    map claim6State "s6" "d6" (.arr [Val.obj [("a", Val.num 1)], Val.undefined])
      = .ok (.arr (mapArray
          { emptyMapping "s6" "d6" with
              typeConverterFunction := some (fun ctx => ctx.sourceValue) }
          [Val.obj [("a", Val.num 1)], Val.undefined]))
    ∧ mapArray
        { emptyMapping "s6" "d6" with
            typeConverterFunction := some (fun ctx => ctx.sourceValue) }
        [Val.obj [("a", Val.num 1)], Val.undefined]
      = [Val.obj [("a", Val.num 1)]] :=
  ⟨(claim6_mapArray_filters claim6State "s6" "d6" _ _ rfl).1, rfl⟩

/-! Claim C7: currying. -/

/-- C7: an under-applied call returns a partial callable capturing the
supplied argument prefix (second conjunct); invoking a partial callable
behaves exactly like re-entering the currying entry point with the captured
prefix concatenated with the new suffix (first conjunct) — in particular
`createMap a` followed by `b` registers the same definition as
`createMap a b` (third conjunct) — and since the closure slices its
captured array before accumulating, its state is the captured prefix alone,
so reusing the same partial with another suffix depends only on that prefix
and the new suffix (fourth conjunct). -/
theorem claim7_currying :
    (∀ (α β : Type) (arity : Nat) (f : List α → β) (provided more : List α),
        provided.length < arity →
        accumulatorCall arity f provided more
          = curryEntry arity f (provided ++ more))
    ∧ (∀ (st : AMState) (a : String),
        curryEntry 2 (createMapArgList st) [a] = CurryResult.curried [a])
    ∧ (∀ (st : AMState) (a b : String),
        accumulatorCall 2 (createMapArgList st) [a] [b]
          = CurryResult.done (createMap st a b))
    ∧ (∀ (st : AMState) (a b c : String),
        accumulatorCall 2 (createMapArgList (createMap st a b)) [a] [c]
          = CurryResult.done (createMap (createMap st a b) a c)) := by
  refine ⟨fun α β arity f provided more _ =>
      accumulatorCall_eq_curryEntry arity f provided more,
    fun st a => rfl, fun st a b => ?_, fun st a b c => ?_⟩
  · rfl
  · rfl

/-- Witness for C7 at a concrete partial application. -/
theorem claim7_witness :
    accumulatorCall 3 (fun _ : List String => emptyAMState) ["x"] ["y"]
      = curryEntry 3 (fun _ : List String => emptyAMState) (["x"] ++ ["y"]) :=
  claim7_currying.1 String AMState 3 _ ["x"] ["y"] (by decide)

/-! Claim C8: naming-convention auto-mapping. -/

/-- The built-in camelCase-to-PascalCase naming profile. -/
def camelPascalProfile : Profile :=
  { profileName := "CamelPascal"
    sourceMemberNamingConvention := some CamelCaseNamingConvention
    destinationMemberNamingConvention := some PascalCaseNamingConvention }

/-- A definition with no member mappings whose assigned profile converts
camelCase source members to PascalCase destination members. -/
def camelPascalMapping : Mapping :=
  { emptyMapping "source" "destination" with profile := some camelPascalProfile }

/-- C8 (amended): with both conventions set, the destination name of an
auto-mapped member is obtained by splitting the source name with the source
convention's splitting rule, discarding empty fragments and applying the
destination convention's transform (third conjunct) — this holds for every
source name, including one the splitting expression nowhere matches, whose
split is the single fragment equal to the whole name, still passed through
the destination transform (see the counterexample: such a name is not used
unmodified, contrary to the original claim's mismatch clause); with either
convention missing the unmodified source name is used and, the function
being total, no error is ever raised (first two conjuncts); under the
built-in camelCase-to-PascalCase profile the source
`{fullName: "John Doe"}` auto-maps to `{FullName: "John Doe"}` (fourth
conjunct). -/
theorem claim8_naming_convention :
    (∀ (n : String) (dc : Option NamingConvention) (name : String),
        mapGetDestinationPropertyName
          { profileName := n
            sourceMemberNamingConvention := none
            destinationMemberNamingConvention := dc } name = name)
    ∧ (∀ (n : String) (sc : Option NamingConvention) (name : String),
        mapGetDestinationPropertyName
          { profileName := n
            sourceMemberNamingConvention := sc
            destinationMemberNamingConvention := none } name = name)
    ∧ (∀ (n : String) (sc dc : NamingConvention) (name : String),
        mapGetDestinationPropertyName
          { profileName := n
            sourceMemberNamingConvention := some sc
            destinationMemberNamingConvention := some dc } name
          = dc.transformPropertyName
              ((sc.split name).filter (fun s => s ≠ "")))
    ∧ mapItem camelPascalMapping (.obj [("fullName", .str "John Doe")])
        = .obj [("FullName", .str "John Doe")] := by
  refine ⟨fun n dc name => ?_, fun n sc name => ?_, fun n sc dc name => rfl,
    rfl⟩
  · cases dc <;> rfl
  · cases sc <;> rfl

/-- The reverse naming profile: PascalCase source members to camelCase
destination members. -/
def pascalCamelProfile : Profile :=
  { profileName := "PascalCamel"
    sourceMemberNamingConvention := some PascalCaseNamingConvention
    destinationMemberNamingConvention := some CamelCaseNamingConvention }

/-- A definition with no member mappings whose assigned profile converts
PascalCase source members to camelCase destination members. -/
def pascalCamelMapping : Mapping :=
  { emptyMapping "sourceUp" "destinationLow" with
      profile := some pascalCamelProfile }

/-- C8 counterexample: the claim states that on a regular-expression
mismatch the unmodified source member name is used.  In the code a
mismatch does not throw: `split` returns the whole name as its single
fragment and the destination convention's transform is still applied.
The PascalCase splitting expression matches nowhere in "A_" (the lone
uppercase letter is followed by neither a lowercase run nor the end with a
preceding lowercase run), yet under the PascalCase-to-camelCase profile
the member lands under "a_", not "A_". -/
theorem claim8_counterexample :
    mapGetDestinationPropertyName pascalCamelProfile "A_" = "a_"
    ∧ mapGetDestinationPropertyName pascalCamelProfile "A_" ≠ "A_"
    ∧ mapItem pascalCamelMapping (.obj [("A_", .str "v")])
        = .obj [("a_", .str "v")] :=
  ⟨rfl, by decide, rfl⟩

/-! Claim C10: null and undefined single sources. -/

/-- C10: for every registered definition without a type converter, mapping
a `null` or `undefined` (non-collection) source does not raise: `for-in`
over `null`/`undefined` iterates zero times, so `map` returns the
constructed destination (factory instance if registered, else a fresh empty
record) with no members copied, and the registry is untouched (`map` is
read-only by construction). -/
theorem claim10_null_undefined_source (st : AMState) (sk dk : String)
    (mapping : Mapping)
    (hlookup : dictGet st.mappings (sk ++ dk) = some mapping)
    (hnoconv : mapping.typeConverterFunction = none) :
    map st sk dk Val.null = .ok (constructDestination mapping)
    ∧ map st sk dk Val.undefined = .ok (constructDestination mapping) := by
  constructor <;> simp [map, hlookup, mapItem, hnoconv, ownKeys]

/-- Registry used by the C10 witness: the destination type class produces a
tagged object. -/
def claim10State : AMState :=
  { profiles := []
    mappings :=
      [("s0d0",
        { emptyMapping "s0" "d0" with
            destinationTypeClass :=
              some (fun _ => Val.obj [("kind", Val.str "Person")]) })] }

/-- Witness for C10 at a concrete registry. -/
theorem claim10_witness :
    map claim10State "s0" "d0" Val.null
      = .ok (Val.obj [("kind", Val.str "Person")]) :=
  (claim10_null_undefined_source claim10State "s0" "d0" _ rfl rfl).1

/-! Claim C2: the ignore invariant. -/

/-- The mapping produced by calling `forSourceMember` with an ignoring
config function for a member with no prior mapping. -/
def claim2Mapping : Mapping :=
  createMapForSourceMember (emptyMapping "src" "dst") "prop"
    { callsIgnore := true, run := fun _ => Val.undefined }

/-- C2 counterexample: the claim states that every reachable ignored
MemberMapping has an empty value/function sequence — in particular that a
`forSourceMember` call whose config function ignores a previously unseen
member never leaves a non-empty sequence.  The code seeds the freshly
created member mapping with the config function unconditionally, so the
resulting member is ignored yet holds one stored function. -/
theorem claim2_counterexample :
    (dictGet claim2Mapping.forMemberMappings "prop").map
        (fun mm => (mm.ignore, mm.mappingValuesAndFunctions.length,
          mm.destinationProperty))
      = some (true, 1, none) :=
  rfl

/-- C2 amended: the invariant holds on the `forMember` path — a dry run in
which the config function invoked `ignore()` leaves the member with the
flag set and an empty value/function sequence (second conjunct), and any
later `forMember` call targeting an ignored member by destination property
returns the mapping unchanged, making ignore terminal there (first
conjunct).  `forSourceMember` does not maintain the invariant (see the
counterexample). -/
theorem claim2_amended_ignore_invariant :
    (∀ (mapping : Mapping) (d : String) (e : MemberMapping)
        (arg : ForMemberArg),
        createMapForMemberFindMember mapping.forMemberMappings (some d)
          = some e →
        e.ignore = true →
        createMapForMember mapping d arg = mapping)
    ∧ (∀ (mm : MemberMapping) (f : MapFunction),
        DeclAction.ignore ∈ f.declActions →
        (createMapForMemberHandleMappingFunction mm f).ignore = true
        ∧ (createMapForMemberHandleMappingFunction mm f).mappingValuesAndFunctions
            = []) := by
  constructor
  · intro mapping d e arg hfind hign
    simp [createMapForMember, hfind, hign]
  · intro mm f h
    exact handleMappingFunction_ignored h

/-- Witness for C2 (amended) at concrete inputs: a `forMember` call on the
counterexample mapping's ignored member (after `forSourceMember`-ignore the
member for "prop" is found by destination... not the case here since its
destination is `undefined`; instead use a member ignored through
`forMember`), and an ignoring dry run on a fresh default member. -/
theorem claim2_witness :
    (createMapForMemberHandleMappingFunction (defaultMemberMapping "q")
        { declActions := [DeclAction.ignore], declThrows := false
          run := fun _ => Val.undefined }).mappingValuesAndFunctions = [] :=
  (claim2_amended_ignore_invariant.2 (defaultMemberMapping "q")
    { declActions := [DeclAction.ignore], declThrows := false
      run := fun _ => Val.undefined }
    (by simp)).2

/-! Claim C9: the forMember dry run. -/

/-- A mapping whose member for destination "x" is ignored (configured via a
`forMember` dry run that called `ignore()`). -/
def claim9Mapping : Mapping :=
  createMapForMember (emptyMapping "s" "d") "x"
    (.func { declActions := [DeclAction.ignore], declThrows := false
             run := fun _ => Val.undefined })

/-- C9 counterexample: the claim states that for every `forMember(d, f)`
call with callable `f`, `f` is invoked once during configuration and —
unless it called `ignore()` — appended to the value/function sequence.
When the existing member for `d` is already ignored, `forMember` returns
before invoking `f`: here `f` only sets a condition and never ignores, yet
the mapping is returned unchanged — the condition is not stored and `f` is
not appended. -/
theorem claim9_counterexample :
    createMapForMember claim9Mapping "x"
        (.func { declActions := [DeclAction.condition (fun _ => Val.bool true)]
                 declThrows := false
                 run := fun _ => Val.str "computed" })
      = claim9Mapping
    ∧ (dictGet claim9Mapping.forMemberMappings "x").map
        (fun mm => (mm.ignore, mm.mappingValuesAndFunctions.length,
          mm.conditionFunction.isSome))
      = some (true, 0, false) :=
  ⟨rfl, rfl⟩

/-- C9 amended: for every `forMember(d, f)` call with callable `f` where
the existing member mapping for `d` (if any) is not ignored: the dry run's
effect is one execution of `f`'s declaration-phase actions against the
base member (second conjunct: the updated member stored in the result is
exactly `createMapForMemberHandleMappingFunction base f`); any exception
`f` raises during the dry run is swallowed, so the result does not depend
on whether it raises (first conjunct — the empty catch block makes
`declThrows` inert); and unless `f` invoked `ignore()`, `f` itself is
appended to the member's value/function sequence (third conjunct). -/
theorem claim9_amended_dry_run (mapping : Mapping) (d : String)
    (acts : List DeclAction) (th : Bool)
    (run0 : MemberConfigurationOptions → Val) (base : MemberMapping)
    (hnotign : ∀ e,
      createMapForMemberFindMember mapping.forMemberMappings (some d)
        = some e → e.ignore = false)
    (hbase : base
      = (createMapForMemberFindMember mapping.forMemberMappings
          (some d)).getD (defaultMemberMapping d)) :
    createMapForMember mapping d
        (.func { declActions := acts, declThrows := th, run := run0 })
      = createMapForMember mapping d
          (.func { declActions := acts, declThrows := false, run := run0 })
    ∧ dictGet (createMapForMember mapping d
          (.func { declActions := acts, declThrows := th, run := run0 })).forMemberMappings
        (createMapForMemberHandleMappingFunction base
          { declActions := acts, declThrows := th, run := run0 }).sourceProperty
      = some (createMapForMemberHandleMappingFunction base
          { declActions := acts, declThrows := th, run := run0 })
    ∧ (DeclAction.ignore ∉ acts →
        (createMapForMemberHandleMappingFunction base
            { declActions := acts, declThrows := th, run := run0 }).mappingValuesAndFunctions
          = base.mappingValuesAndFunctions ++ [ValueOrFunction.func run0]) := by
  refine ⟨rfl, ?_, fun hni =>
    handleMappingFunction_no_ignore hni⟩
  cases hfind : createMapForMemberFindMember mapping.forMemberMappings
      (some d) with
  | none =>
      rw [hfind] at hbase
      simp only [Option.getD] at hbase
      subst hbase
      simp only [createMapForMember, hfind]
      exact dictGet_dictSet_self _ _ _
  | some e =>
      have hig : e.ignore = false := hnotign e hfind
      have hbase2 : base = e := by
        rw [hfind] at hbase
        simpa using hbase
      rw [hbase2]
      simp only [createMapForMember, hfind, hig]
      by_cases hsp : e.sourceProperty
          = (createMapForMemberHandleMappingFunction e
              { declActions := acts, declThrows := th, run := run0 }).sourceProperty
      · rw [if_pos hsp, hsp]
        exact dictGet_dictSet_self _ _ _
      · rw [if_neg hsp]
        exact dictGet_dictSet_self _ _ _

/-- Witness for C9 (amended) at a concrete input: a `mapFrom`-only function
dry-run against an empty mapping. -/
theorem claim9_witness :
    (createMapForMemberHandleMappingFunction (defaultMemberMapping "z")
        { declActions := [DeclAction.mapFrom "w"], declThrows := true
          run := fun _ => Val.num 7 }).mappingValuesAndFunctions
      = (defaultMemberMapping "z").mappingValuesAndFunctions
        ++ [ValueOrFunction.func (fun _ => Val.num 7)] :=
  (claim9_amended_dry_run (emptyMapping "s" "d") "z" [DeclAction.mapFrom "w"]
    true (fun _ => Val.num 7) (defaultMemberMapping "z")
    (fun e he => by simp [createMapForMemberFindMember] at he) rfl).2.2
    (by intro h; rw [List.mem_singleton] at h; cases h)

/-! Claim C1: withProfile merge semantics. -/

/-- C1: for every registered profile whose staged mapping is stored under
the profile-qualified compound key for the live mapping's ordered key pair,
`withProfile` assigns the profile and merges the staged mapping into the
live one (first conjunct).  For every live and staged mapping — with
arbitrarily many staged member mappings, including none — the merge
appends the staged all-members handlers after the existing ones in order
(second conjunct) and overwrites the type converter and the destination
construction rule exactly when the staged one is set (third and fourth
conjuncts).  The member-merge loop processes every staged MemberMapping in
turn: a staged member whose `destinationProperty` matches an existing
member wholly replaces it — the existing entry is deleted and the staged
MemberMapping itself is stored, with no field-level merge (fifth conjunct)
— while a staged member matching nothing leaves the live mapping unchanged
(sixth conjunct).  Consequently, when the live member dictionary is
well-formed (keys equal each member's `sourceProperty` and are unique) and
`e` is the only live member with the staged member `p`'s destination
property, after the replacing step the member found for that destination
property is `p` itself (seventh conjunct) — so when `forMember "x"`
precedes `withProfile "P"` and profile P also configures destination
member "x", the profile's configuration for "x" is the one in effect. -/
theorem claim1_withProfile_merge :
    (∀ (st : AMState) (mapping profileMapping : Mapping) (P : Profile)
        (profileName : String),
        dictGet st.profiles profileName = some P →
        P.profileName = profileName →
        dictGet st.mappings
            (profileName ++ "=>" ++ mapping.sourceKey
              ++ profileName ++ "=>" ++ mapping.destinationKey)
          = some profileMapping →
        createMapWithProfile st mapping profileName
          = .ok (mergeWithProfileMapping
              { mapping with profile := some P } profileMapping))
    ∧ (∀ mapping profileMapping : Mapping,
        (mergeWithProfileMapping mapping profileMapping).forAllMemberMappings
          = mapping.forAllMemberMappings
            ++ profileMapping.forAllMemberMappings)
    ∧ (∀ mapping profileMapping : Mapping,
        (mergeWithProfileMapping mapping profileMapping).typeConverterFunction
          = (match profileMapping.typeConverterFunction with
             | some f => some f
             | none => mapping.typeConverterFunction))
    ∧ (∀ mapping profileMapping : Mapping,
        (mergeWithProfileMapping mapping profileMapping).destinationTypeClass
          = (match profileMapping.destinationTypeClass with
             | some c => some c
             | none => mapping.destinationTypeClass))
    ∧ (∀ (acc : Mapping) (p e : MemberMapping),
        createMapForMemberFindMember acc.forMemberMappings
            p.destinationProperty = some e →
        (mergeMemberStep acc p).forMemberMappings
          = dictSet (dictDelete acc.forMemberMappings e.sourceProperty)
              p.sourceProperty p)
    ∧ (∀ (acc : Mapping) (p : MemberMapping),
        createMapForMemberFindMember acc.forMemberMappings
            p.destinationProperty = none →
        mergeMemberStep acc p = acc)
    ∧ (∀ (acc : Mapping) (p e : MemberMapping),
        (∀ kv ∈ acc.forMemberMappings, kv.1 = kv.2.sourceProperty) →
        (acc.forMemberMappings.map Prod.fst).Nodup →
        createMapForMemberFindMember acc.forMemberMappings
            p.destinationProperty = some e →
        (∀ kv ∈ acc.forMemberMappings,
          kv.2.destinationProperty = p.destinationProperty → kv.2 = e) →
        createMapForMemberFindMember
            (mergeMemberStep acc p).forMemberMappings
            p.destinationProperty
          = some p) := by
  refine ⟨?_, ?_, ?_, ?_, ?_, ?_, ?_⟩
  · intro st mapping profileMapping P profileName hprof hname hstage
    simp [createMapWithProfile, hprof, hname,
      createMapWithProfileMergeMappings, hstage]
  · intro mapping profileMapping
    simp only [mergeWithProfileMapping]
    rw [(foldMergeStep_fields _ _).1]
    cases hh : profileMapping.forAllMemberMappings with
    | nil => simp [hh]
    | cons a as => simp [hh]
  · intro mapping profileMapping
    simp only [mergeWithProfileMapping]
    rw [(foldMergeStep_fields _ _).2.1]
  · intro mapping profileMapping
    simp only [mergeWithProfileMapping]
    rw [(foldMergeStep_fields _ _).2.2]
  · intro acc p e hfind
    simp [mergeMemberStep, hfind]
  · intro acc p hfind
    simp [mergeMemberStep, hfind]
  · intro acc p e hWF hND hfind hUniq
    have hfmm : (mergeMemberStep acc p).forMemberMappings
        = dictSet (dictDelete acc.forMemberMappings e.sourceProperty)
            p.sourceProperty p := by
      simp [mergeMemberStep, hfind]
    rw [hfmm]
    apply findMember_eq_of_unique
    · exact ⟨(p.sourceProperty, p), self_mem_dictSet _ _ _, rfl⟩
    · intro kv hkv hkd
      rcases mem_dictSet hkv with h | h
      · have hdel := mem_dictDelete hND h
        have hkv2 : kv.2 = e := hUniq kv hdel.1 hkd
        have hk1 : kv.1 = kv.2.sourceProperty := hWF kv hdel.1
        rw [hkv2] at hk1
        exact absurd hk1 hdel.2
      · rw [h]

/-- Profile used by the C1 witness (no naming conventions). -/
def claim1Profile : Profile :=
  { profileName := "P"
    sourceMemberNamingConvention := none
    destinationMemberNamingConvention := none }

/-- The member mapping for destination "x" produced by the direct
`forMember "x" "direct"` call. -/
def claim1DirectMember : MemberMapping :=
  { sourceProperty := "x"
    destinationProperty := some "x"
    mappingValuesAndFunctions := [.value (.str "direct")]
    ignore := false
    conditionFunction := none }

/-- The member mapping for destination "x" staged by the profile. -/
def claim1ProfileMember : MemberMapping :=
  { sourceProperty := "x"
    destinationProperty := some "x"
    mappingValuesAndFunctions := [.value (.str "viaProfile")]
    ignore := false
    conditionFunction := none }

/-- The live mapping: `createMap "s" "d"` followed by
`forMember "x" "direct"`. -/
def claim1LiveMapping : Mapping :=
  createMapForMember (emptyMapping "s" "d") "x" (.value (.str "direct"))

/-- The staged mapping the profile registered under its qualified keys,
configuring destination member "x" as well. -/
def claim1StagedMapping : Mapping :=
  createMapForMember (emptyMapping "P=>s" "P=>d") "x"
    (.value (.str "viaProfile"))

/-- Registry for the C1 witness: the profile and its staged mapping (the
staged mapping is stored under the compound key
`"P" ++ "=>" ++ "s" ++ "P" ++ "=>" ++ "d"`). -/
def claim1State : AMState :=
  { profiles := [("P", claim1Profile)]
    mappings := [("P=>sP=>d", claim1StagedMapping)] }

/-- Witness for C1 at the concrete forMember-then-withProfile scenario:
`withProfile "P"` performs the merge on the live mapping, and after the
merge the configuration in effect for destination "x" is the profile's
member mapping. -/
theorem claim1_witness :
    createMapWithProfile claim1State claim1LiveMapping "P"
      = .ok (mergeWithProfileMapping
          { claim1LiveMapping with profile := some claim1Profile }
          claim1StagedMapping)
    ∧ createMapForMemberFindMember
        (mergeWithProfileMapping
          { claim1LiveMapping with profile := some claim1Profile }
          claim1StagedMapping).forMemberMappings
        (some "x")
      = some claim1ProfileMember := by
  constructor
  · exact claim1_withProfile_merge.1 claim1State claim1LiveMapping
      claim1StagedMapping claim1Profile "P" rfl rfl rfl
  · have hbridge : mergeWithProfileMapping
        { claim1LiveMapping with profile := some claim1Profile }
        claim1StagedMapping
        = mergeMemberStep
            { claim1LiveMapping with profile := some claim1Profile }
            claim1ProfileMember := rfl
    rw [hbridge]
    exact claim1_withProfile_merge.2.2.2.2.2.2
      { claim1LiveMapping with profile := some claim1Profile }
      claim1ProfileMember claim1DirectMember
      (by
        intro kv hkv
        have h2 : ({ claim1LiveMapping with
              profile := some claim1Profile } : Mapping).forMemberMappings
            = [("x", claim1DirectMember)] := rfl
        rw [h2] at hkv
        simp at hkv
        rw [hkv]
        rfl)
      (by
        have h2 : ({ claim1LiveMapping with
              profile := some claim1Profile } : Mapping).forMemberMappings
            = [("x", claim1DirectMember)] := rfl
        rw [h2]
        simp)
      rfl
      (by
        intro kv hkv hkd
        have h2 : ({ claim1LiveMapping with
              profile := some claim1Profile } : Mapping).forMemberMappings
            = [("x", claim1DirectMember)] := rfl
        rw [h2] at hkv
        simp at hkv
        rw [hkv])

end AutoMapperJs
